import Mathlib

/-!
Shallow embedding of `src/oddeven.py` (Cloudbet odd/even betting daemon):
the rate limiter, the resilient request executor (`safe_request`), the bet
monitor (`monitor_bet`), event discovery (`get_all_live_basketball_events`,
`get_odd_even_market`), bet placement (`place_bet`) and the dedup step of
the poll loop, together with theorems settling the specification claims.

Modelling conventions: wall-clock times, sleep durations and prices are
rationals (the Python floats carry no float-specific behaviour relevant to
the claims); each external service is a function from attempt/selection
index to an observed outcome; stateful side effects (HTTP attempts, sleeps,
store writes, monitor spawns, log lines) are recorded in an explicit trace
list; Python exceptions become `Except`.
-/

namespace OddEven

/-! ### Resilient request executor (`safe_request`, lines 67-91) -/

/-- Outcome of one `requests.request` call as observed by `safe_request`:
a 2xx response `r` (so `raise_for_status` passes), a 429 status, or a
`RequestException` (transport error or `raise_for_status` on a non-2xx). -/
inductive AttemptResult (α : Type) where
  | ok (r : α)
  | rateLimited
  | error
deriving DecidableEq

/-- Events recorded on the executor / rate-limiter trace: a rate-limiter
grant (`LAST_CALL_TIME` updated, line 61), the `n`-th HTTP attempt
(`requests.request`, line 74), a sleep of `d` seconds, and the final
"Failed after multiple retries" log line (line 90). -/
inductive Ev where
  | grant
  | httpAttempt (n : Nat)
  | sleep (d : ℚ)
  | logFail
deriving DecidableEq

/-- The retry loop of `safe_request` (lines 72-89). `fuel` is the number of
loop iterations remaining (initially 8), `i` the index of the next attempt,
`backoff` the current backoff value; `jit` gives the value drawn by
`random.uniform(1, 5)` before each retry sleep. On a failed attempt the
code sleeps `backoff + jitter`, then doubles `backoff` capping at 600. -/
def safe_request_go {α : Type} (beh : Nat → AttemptResult α) (jit : Nat → ℚ) :
    Nat → Nat → ℚ → List Ev × Option α
  | 0, _, _ => ([Ev.logFail], none)
  | fuel + 1, i, backoff =>
    match beh i with
    | AttemptResult.ok r => ([Ev.httpAttempt i], some r)
    | AttemptResult.rateLimited =>
      let rest := safe_request_go beh jit fuel (i + 1) (min (backoff * 2) 600)
      (Ev.httpAttempt i :: Ev.sleep (backoff + jit i) :: rest.1, rest.2)
    | AttemptResult.error =>
      let rest := safe_request_go beh jit fuel (i + 1) (min (backoff * 2) 600)
      (Ev.httpAttempt i :: Ev.sleep (backoff + jit i) :: rest.1, rest.2)

/-- Embedding of `safe_request` (lines 67-91): up to 8 attempts, initial backoff 5. -/
def safe_request {α : Type} (beh : Nat → AttemptResult α) (jit : Nat → ℚ) :
    List Ev × Option α :=
  safe_request_go beh jit 8 0 5

/-- Embedding of `rate_limited_request` (lines 53-62): acquire one rate-limit slot
(record the grant), then run `safe_request` once. -/
def rate_limited_request {α : Type} (beh : Nat → AttemptResult α)
    (jit : Nat → ℚ) : List Ev × Option α :=
  let rest := safe_request beh jit
  (Ev.grant :: rest.1, rest.2)

/-- Number of rate-limiter grants on a trace. -/
def grantCount : List Ev → Nat
  | [] => 0
  | Ev.grant :: rest => grantCount rest + 1
  | _ :: rest => grantCount rest

/-- Number of HTTP attempts on a trace. -/
def attemptCount : List Ev → Nat
  | [] => 0
  | Ev.httpAttempt _ :: rest => attemptCount rest + 1
  | _ :: rest => attemptCount rest

/-- The list of sleep durations on a trace, in order. -/
def sleeps : List Ev → List ℚ
  | [] => []
  | Ev.sleep d :: rest => d :: sleeps rest
  | _ :: rest => sleeps rest

/-- Checks that every HTTP attempt on the trace is covered by its own
rate-limiter grant: a grant arms the flag, an attempt requires the flag and
consumes it. This is the claim "no HTTP request is issued without an
intervening grant for that attempt". -/
def allGranted : List Ev → Bool → Bool
  | [], _ => true
  | Ev.grant :: rest, _ => allGranted rest true
  | Ev.httpAttempt _ :: rest, armed => armed && allGranted rest false
  | Ev.sleep _ :: rest, armed => allGranted rest armed
  | Ev.logFail :: rest, armed => allGranted rest armed

/-- Checks that every HTTP attempt after the first is preceded (since the
previous attempt) by a sleep of at least 5 seconds. The flag records
whether such a sleep (or no attempt at all) has occurred since the last
attempt. -/
def backoffSpaced : List Ev → Bool → Bool
  | [], _ => true
  | Ev.httpAttempt _ :: rest, ok => ok && backoffSpaced rest false
  | Ev.sleep d :: rest, ok => backoffSpaced rest (ok || decide (5 ≤ d))
  | Ev.grant :: rest, ok => backoffSpaced rest ok
  | Ev.logFail :: rest, ok => backoffSpaced rest ok

/-- The backoff sequence as evolved by `safe_request` from starting value
`b`: `backoffFrom b 0 = b` and each step doubles, capped at 600. -/
def backoffFrom (b : ℚ) : Nat → ℚ
  | 0 => b
  | n + 1 => backoffFrom (min (b * 2) 600) n

/-- Whether an attempt outcome is a success. -/
def isOk {α : Type} : AttemptResult α → Bool
  | AttemptResult.ok _ => true
  | _ => false

/-! ### Executor lemmas -/

lemma safe_request_go_no_grant {α : Type} (beh : Nat → AttemptResult α)
    (jit : Nat → ℚ) :
    ∀ (fuel i : Nat) (b : ℚ), grantCount (safe_request_go beh jit fuel i b).1 = 0
  | 0, i, b => by simp [safe_request_go, grantCount]
  | fuel + 1, i, b => by
    have ih := safe_request_go_no_grant beh jit fuel (i + 1) (min (b * 2) 600)
    cases h : beh i <;> simp [safe_request_go, h, grantCount, ih]

lemma backoffSpaced_go {α : Type} (beh : Nat → AttemptResult α) (jit : Nat → ℚ)
    (hjit : ∀ t, 0 ≤ jit t) :
    ∀ (fuel i : Nat) (b : ℚ), 5 ≤ b →
      backoffSpaced (safe_request_go beh jit fuel i b).1 true = true
  | 0, i, b, _ => by simp [safe_request_go, backoffSpaced]
  | fuel + 1, i, b, hb => by
    have hb' : (5 : ℚ) ≤ min (b * 2) 600 := by
      refine le_min ?_ (by norm_num)
      linarith
    have ih := backoffSpaced_go beh jit hjit fuel (i + 1) (min (b * 2) 600) hb'
    have hd : (5 : ℚ) ≤ b + jit i := by have := hjit i; linarith
    cases h : beh i <;>
      simp [safe_request_go, h, backoffSpaced, hd, ih]

lemma safe_request_go_fail_ok {α : Type} (beh : Nat → AttemptResult α)
    (jit : Nat → ℚ) (r : α) :
    ∀ (K fuel i : Nat) (b : ℚ), K < fuel →
      (∀ j, j < K → isOk (beh (i + j)) = false) →
      beh (i + K) = AttemptResult.ok r →
      (safe_request_go beh jit fuel i b).2 = some r ∧
      sleeps (safe_request_go beh jit fuel i b).1 =
        (List.range K).map (fun t => backoffFrom b t + jit (i + t)) := by
  intro K
  induction K with
  | zero =>
    intro fuel i b hK hfail hok
    obtain ⟨f, rfl⟩ : ∃ f, fuel = f + 1 := ⟨fuel - 1, by omega⟩
    have hok' : beh i = AttemptResult.ok r := by simpa using hok
    simp [safe_request_go, hok', sleeps]
  | succ K ih =>
    intro fuel i b hK hfail hok
    obtain ⟨f, rfl⟩ : ∃ f, fuel = f + 1 := ⟨fuel - 1, by omega⟩
    have h0 : isOk (beh i) = false := by simpa using hfail 0 (Nat.succ_pos K)
    have hrec := ih f (i + 1) (min (b * 2) 600) (by omega)
      (fun j hj => by
        have := hfail (j + 1) (by omega)
        simpa [Nat.add_comm, Nat.add_left_comm, Nat.add_assoc] using this)
      (by
        have : i + (K + 1) = i + 1 + K := by omega
        simpa [this] using hok)
    have hmap : ((List.range (K + 1)).map (fun t => backoffFrom b t + jit (i + t))) =
        (b + jit i) ::
          (List.range K).map (fun t => backoffFrom (min (b * 2) 600) t + jit (i + 1 + t)) := by
      rw [List.range_succ_eq_map, List.map_cons, List.map_map]
      refine congrArg₂ _ (by simp [backoffFrom]) ?_
      refine List.map_congr_left ?_
      intro t _
      have harg : i + Nat.succ t = i + 1 + t := by omega
      simp [Function.comp, backoffFrom, harg]
    cases h : beh i with
    | ok r' => simp [isOk, h] at h0
    | rateLimited =>
      refine ⟨?_, ?_⟩
      · simp [safe_request_go, h, hrec.1]
      · simp [safe_request_go, h, sleeps, hrec.2, hmap]
    | error =>
      refine ⟨?_, ?_⟩
      · simp [safe_request_go, h, hrec.1]
      · simp [safe_request_go, h, sleeps, hrec.2, hmap]

lemma safe_request_go_all_fail {α : Type} (beh : Nat → AttemptResult α)
    (jit : Nat → ℚ) :
    ∀ (fuel i : Nat) (b : ℚ), (∀ j, j < fuel → isOk (beh (i + j)) = false) →
      (safe_request_go beh jit fuel i b).2 = none ∧
      attemptCount (safe_request_go beh jit fuel i b).1 = fuel ∧
      Ev.logFail ∈ (safe_request_go beh jit fuel i b).1
  | 0, i, b, _ => by simp [safe_request_go, attemptCount]
  | fuel + 1, i, b, hfail => by
    have h0 : isOk (beh i) = false := by simpa using hfail 0 (Nat.succ_pos fuel)
    have ih := safe_request_go_all_fail beh jit fuel (i + 1) (min (b * 2) 600)
      (fun j hj => by
        have := hfail (j + 1) (by omega)
        simpa [Nat.add_comm, Nat.add_left_comm, Nat.add_assoc] using this)
    cases h : beh i with
    | ok r' => simp [isOk, h] at h0
    | rateLimited =>
      simp [safe_request_go, h, attemptCount, ih.1, ih.2.1, ih.2.2]
    | error =>
      simp [safe_request_go, h, attemptCount, ih.1, ih.2.1, ih.2.2]

/-- Endpoint behaviour used as concrete input: one 429, then success. -/
def cbeh1 : Nat → AttemptResult Nat :=
  fun n => if n = 0 then AttemptResult.rateLimited else AttemptResult.ok 0

/-- Constant unit jitter used as concrete input. -/
def cjit1 : Nat → ℚ := fun _ => 1

/-- Claim C1, counterexample: with an endpoint that returns 429 once and
then succeeds, the trace of `rate_limited_request` contains an HTTP attempt
(the retry inside `safe_request`) that is not covered by any rate-limiter
grant, so not every attempt consumes a rate-limit slot. -/
theorem claim_C1_cex :
    allGranted (rate_limited_request cbeh1 cjit1).1 false = false := by
  decide

/-- Claim C1, amended: each `rate_limited_request` call acquires exactly one
rate-limiter grant, placed before the first HTTP attempt of `safe_request`;
the retry attempts inside `safe_request` consume no further grant, and each
of them is instead preceded by a backoff sleep of at least 5 seconds. -/
theorem claim_C1 {α : Type} (beh : Nat → AttemptResult α) (jit : Nat → ℚ)
    (hjit : ∀ t, 0 ≤ jit t) :
    (rate_limited_request beh jit).1 = Ev.grant :: (safe_request beh jit).1 ∧
    grantCount (rate_limited_request beh jit).1 = 1 ∧
    backoffSpaced (rate_limited_request beh jit).1 true = true := by
  refine ⟨rfl, ?_, ?_⟩
  · have h := safe_request_go_no_grant beh jit 8 0 5
    simp [rate_limited_request, grantCount, safe_request, h]
  · have h := backoffSpaced_go beh jit hjit 8 0 5 (le_refl 5)
    simp [rate_limited_request, backoffSpaced, safe_request, h]

/-- Witness for Claim C1 at the concrete behaviour `cbeh1`, `cjit1`. -/
theorem claim_C1_witness :
    (rate_limited_request cbeh1 cjit1).1 = Ev.grant :: (safe_request cbeh1 cjit1).1 ∧
    grantCount (rate_limited_request cbeh1 cjit1).1 = 1 ∧
    backoffSpaced (rate_limited_request cbeh1 cjit1).1 true = true :=
  claim_C1 cbeh1 cjit1 (fun t => by norm_num [cjit1])

/-- Endpoint behaviour used as concrete input: a 429, then a transport
error, then success 7. -/
def cbeh3 : Nat → AttemptResult Nat :=
  fun n =>
    if n = 0 then AttemptResult.rateLimited
    else if n = 1 then AttemptResult.error
    else AttemptResult.ok 7

/-- Claim C3: if the endpoint yields a failure — an HTTP 429 or another
transport/HTTP error, in any mix — on exactly the first `K` attempts and
then a 2xx response `r`, with `K < 8`, then `safe_request` returns `r`,
having slept before each retry for `backoff + jitter` seconds where the
backoff starts at 5 and doubles after each failed attempt capped at 600;
the total sleep is at least the sum of the first `K` backoffs. -/
theorem claim_C3 {α : Type} (beh : Nat → AttemptResult α) (jit : Nat → ℚ)
    (r : α) (K : Nat) (hK : K < 8)
    (hfails : ∀ j, j < K → isOk (beh j) = false)
    (hok : beh K = AttemptResult.ok r)
    (hjit : ∀ t, 1 ≤ jit t) :
    (safe_request beh jit).2 = some r ∧
    sleeps (safe_request beh jit).1 =
      (List.range K).map (fun t => backoffFrom 5 t + jit t) ∧
    ((List.range K).map (backoffFrom 5)).sum ≤ (sleeps (safe_request beh jit).1).sum := by
  have hfail : ∀ j, j < K → isOk (beh (0 + j)) = false := by
    intro j hj
    simpa using hfails j hj
  have hok' : beh (0 + K) = AttemptResult.ok r := by simpa using hok
  have hmain := safe_request_go_fail_ok beh jit r K 8 0 5 hK hfail hok'
  have hsum : ∀ n, ((List.range n).map (backoffFrom 5)).sum ≤
      ((List.range n).map (fun t => backoffFrom 5 t + jit t)).sum := by
    intro n
    induction n with
    | zero => simp
    | succ m ihm =>
      rw [List.range_succ, List.map_append, List.map_append, List.sum_append,
        List.sum_append]
      have h1 := hjit m
      simp only [List.map_cons, List.map_nil, List.sum_cons, List.sum_nil]
      linarith
  refine ⟨hmain.1, by simpa using hmain.2, ?_⟩
  have h2 := hmain.2
  simp only [safe_request] at h2 ⊢
  rw [h2]
  simpa using hsum K

/-- Witness for Claim C3 at the concrete mixed-failure behaviour `cbeh3`
(one 429, then one transport error, then success), `cjit1`. -/
theorem claim_C3_witness :
    (safe_request cbeh3 cjit1).2 = some 7 ∧
    sleeps (safe_request cbeh3 cjit1).1 =
      (List.range 2).map (fun t => backoffFrom 5 t + cjit1 t) ∧
    ((List.range 2).map (backoffFrom 5)).sum ≤ (sleeps (safe_request cbeh3 cjit1).1).sum :=
  claim_C3 cbeh3 cjit1 7 2 (by norm_num)
    (fun j hj => by
      have : j = 0 ∨ j = 1 := by omega
      rcases this with rfl | rfl <;> rfl)
    (by rfl)
    (fun t => le_refl 1)

/-- Endpoint behaviour used as concrete input: every attempt errors. -/
def cbeh4 : Nat → AttemptResult Nat := fun _ => AttemptResult.error

/-- Claim C4: the executor never raises to its caller (it is a total
function into `Option`): it returns the response of the first successful
attempt when one occurs within the 8-attempt budget, and when all 8
attempts fail it makes exactly 8 HTTP attempts, logs the failure and
returns `none`. -/
theorem claim_C4 {α : Type} (beh : Nat → AttemptResult α) (jit : Nat → ℚ) :
    ((∀ j, j < 8 → isOk (beh j) = false) →
      (safe_request beh jit).2 = none ∧
      attemptCount (safe_request beh jit).1 = 8 ∧
      Ev.logFail ∈ (safe_request beh jit).1) ∧
    (∀ i r, i < 8 → (∀ j, j < i → isOk (beh j) = false) →
      beh i = AttemptResult.ok r → (safe_request beh jit).2 = some r) := by
  constructor
  · intro hfail
    exact safe_request_go_all_fail beh jit 8 0 5 (fun j hj => by simpa using hfail j hj)
  · intro i r hi hfail hok
    have h := safe_request_go_fail_ok beh jit r i 8 0 5 hi
      (fun j hj => by simpa using hfail j hj) (by simpa using hok)
    exact h.1

/-- Witness for Claim C4 at the concrete behaviour `cbeh4`, `cjit1`. -/
theorem claim_C4_witness :
    (safe_request cbeh4 cjit1).2 = none ∧
    attemptCount (safe_request cbeh4 cjit1).1 = 8 ∧
    Ev.logFail ∈ (safe_request cbeh4 cjit1).1 :=
  (claim_C4 cbeh4 cjit1).1 (fun j _ => rfl)

/-! ### Bet monitor (`monitor_bet`, lines 209-233)

A status query (`check_bet_status`) is modelled as `Nat → Option String`:
`none` when `rate_limited_request` yielded no response, `some s` for a
response whose status field is `s`. -/

/-- The `terminal_states` list of `monitor_bet` (lines 210-213). -/
def terminal_states : List String :=
  ["ACCEPTED", "REJECTED", "WIN", "LOSS", "PUSH",
   "MARKET_SUSPENDED", "INSUFFICIENT_FUNDS", "CANCELLED"]

/-- Actions recorded by the monitor: the `i`-th status query, the
resolution log line, the "still …" log line, the removal of the PendingBet
entry (`active_bets.pop`), and the timeout warning. -/
inductive MonAct where
  | query (i : Nat)
  | logResolved (s : String)
  | logStill (s : String)
  | popEntry
  | logTimeout
deriving DecidableEq

/-- The loop of `monitor_bet` (lines 215-233). `fuel` iterations remain;
`i` is the index of the next status query. A query with no result consumes
an iteration and retries; a terminal status logs, pops the entry and
returns; a non-terminal status logs and continues; after `max_checks`
iterations without a terminal status the warning is logged and the entry
popped. -/
def monitor_go (q : Nat → Option String) : Nat → Nat → List MonAct
  | 0, _ => [MonAct.logTimeout, MonAct.popEntry]
  | fuel + 1, i =>
    MonAct.query i ::
      match q i with
      | some s =>
        if s ∈ terminal_states then [MonAct.logResolved s, MonAct.popEntry]
        else MonAct.logStill s :: monitor_go q fuel (i + 1)
      | none => monitor_go q fuel (i + 1)

/-- Embedding of `monitor_bet` (lines 209-233) with attempt budget `max_checks`. -/
def monitor_bet (q : Nat → Option String) (max_checks : Nat) : List MonAct :=
  monitor_go q max_checks 0

/-- Number of status queries on a monitor trace. -/
def queryCount : List MonAct → Nat
  | [] => 0
  | MonAct.query _ :: rest => queryCount rest + 1
  | _ :: rest => queryCount rest

/-- Number of PendingBet removals on a monitor trace. -/
def popCount : List MonAct → Nat
  | [] => 0
  | MonAct.popEntry :: rest => popCount rest + 1
  | _ :: rest => popCount rest

/-- Whether an observed query result is a terminal status. -/
def isTerminalObs : Option String → Bool
  | some s => decide (s ∈ terminal_states)
  | none => false

/-! ### Monitor lemmas -/

lemma monitor_go_pop_end (q : Nat → Option String) :
    ∀ (fuel i : Nat), ∃ pre, monitor_go q fuel i = pre ++ [MonAct.popEntry] ∧
      popCount pre = 0
  | 0, i => ⟨[MonAct.logTimeout], rfl, rfl⟩
  | fuel + 1, i => by
    obtain ⟨pre, hpre, hcount⟩ := monitor_go_pop_end q fuel (i + 1)
    cases hq : q i with
    | none =>
      exact ⟨MonAct.query i :: pre, by simp [monitor_go, hq, hpre],
        by simp [popCount, hcount]⟩
    | some s =>
      by_cases hs : s ∈ terminal_states
      · exact ⟨[MonAct.query i, MonAct.logResolved s],
          by simp [monitor_go, hq, hs], rfl⟩
      · exact ⟨MonAct.query i :: MonAct.logStill s :: pre,
          by simp [monitor_go, hq, hs, hpre], by simp [popCount, hcount]⟩

lemma popCount_append (l₁ l₂ : List MonAct) :
    popCount (l₁ ++ l₂) = popCount l₁ + popCount l₂ := by
  induction l₁ with
  | nil => simp [popCount]
  | cons a l ih => cases a <;> simp [popCount, ih] <;> omega

lemma monitor_go_first_terminal (q : Nat → Option String) (s : String) :
    ∀ (M fuel i : Nat), M < fuel →
      (∀ j, j < M → isTerminalObs (q (i + j)) = false) →
      q (i + M) = some s → s ∈ terminal_states →
      queryCount (monitor_go q fuel i) = M + 1 ∧
      MonAct.logResolved s ∈ monitor_go q fuel i := by
  intro M
  induction M with
  | zero =>
    intro fuel i hM hfail hq hs
    obtain ⟨f, rfl⟩ : ∃ f, fuel = f + 1 := ⟨fuel - 1, by omega⟩
    have hq' : q i = some s := by simpa using hq
    simp [monitor_go, hq', hs, queryCount]
  | succ M ih =>
    intro fuel i hM hfail hq hs
    obtain ⟨f, rfl⟩ : ∃ f, fuel = f + 1 := ⟨fuel - 1, by omega⟩
    have h0 : isTerminalObs (q i) = false := by simpa using hfail 0 (Nat.succ_pos M)
    have hrec := ih f (i + 1) (by omega)
      (fun j hj => by
        have := hfail (j + 1) (by omega)
        simpa [Nat.add_comm, Nat.add_left_comm, Nat.add_assoc] using this)
      (by
        have : i + (M + 1) = i + 1 + M := by omega
        simpa [this] using hq) hs
    cases hq0 : q i with
    | none =>
      simp only [monitor_go, hq0]
      exact ⟨by simp [queryCount, hrec.1], by simp [hrec.2]⟩
    | some s' =>
      have hs' : s' ∉ terminal_states := by
        simpa [isTerminalObs, hq0] using h0
      simp only [monitor_go, hq0, if_neg hs']
      exact ⟨by simp [queryCount, hrec.1], by simp [hrec.2]⟩

lemma monitor_go_no_terminal (q : Nat → Option String) :
    ∀ (fuel i : Nat), (∀ j, j < fuel → isTerminalObs (q (i + j)) = false) →
      queryCount (monitor_go q fuel i) = fuel ∧
      MonAct.logTimeout ∈ monitor_go q fuel i
  | 0, i, _ => by simp [monitor_go, queryCount]
  | fuel + 1, i, hfail => by
    have h0 : isTerminalObs (q i) = false := by simpa using hfail 0 (Nat.succ_pos fuel)
    have ih := monitor_go_no_terminal q fuel (i + 1)
      (fun j hj => by
        have := hfail (j + 1) (by omega)
        simpa [Nat.add_comm, Nat.add_left_comm, Nat.add_assoc] using this)
    cases hq0 : q i with
    | none =>
      simp only [monitor_go, hq0]
      exact ⟨by simp [queryCount, ih.1], by simp [ih.2]⟩
    | some s' =>
      have hs' : s' ∉ terminal_states := by
        simpa [isTerminalObs, hq0] using h0
      simp only [monitor_go, hq0, if_neg hs']
      exact ⟨by simp [queryCount, ih.1], by simp [ih.2]⟩

/-- Claim C2: for every status-query behaviour, `monitor_bet` removes the
PendingBet entry exactly once and the removal is the last action (no
status query follows it); if the first terminal status is observed at
query index `M < max_checks`, the monitor ends after exactly `M + 1`
queries and logs the resolution; if no terminal status is observed in
`max_checks` queries, the monitor ends after exactly `max_checks` queries
and logs the timeout warning. -/
theorem claim_C2 (q : Nat → Option String) (n : Nat) :
    (popCount (monitor_bet q n) = 1 ∧
      (monitor_bet q n).getLast? = some MonAct.popEntry) ∧
    (∀ M s, M < n → (∀ j, j < M → isTerminalObs (q j) = false) →
      q M = some s → s ∈ terminal_states →
      queryCount (monitor_bet q n) = M + 1 ∧
      MonAct.logResolved s ∈ monitor_bet q n) ∧
    ((∀ j, j < n → isTerminalObs (q j) = false) →
      queryCount (monitor_bet q n) = n ∧
      MonAct.logTimeout ∈ monitor_bet q n) := by
  refine ⟨?_, ?_, ?_⟩
  · obtain ⟨pre, hpre, hcount⟩ := monitor_go_pop_end q n 0
    constructor
    · simp [monitor_bet, hpre, popCount_append, hcount, popCount]
    · simp [monitor_bet, hpre]
  · intro M s hM hfail hq hs
    exact monitor_go_first_terminal q s M n 0 hM (fun j hj => by simpa using hfail j hj)
      (by simpa using hq) hs
  · intro hfail
    exact monitor_go_no_terminal q n 0 (fun j hj => by simpa using hfail j hj)

/-- Status-query behaviour used as concrete input: `PENDING` twice, then
`WIN`. -/
def cq2 : Nat → Option String :=
  fun j => if j < 2 then some "PENDING" else some "WIN"

/-- Witness for Claim C2 at the concrete behaviour `cq2` with the default
budget of 60 checks. -/
theorem claim_C2_witness :
    (popCount (monitor_bet cq2 60) = 1 ∧
      (monitor_bet cq2 60).getLast? = some MonAct.popEntry) ∧
    (queryCount (monitor_bet cq2 60) = 2 + 1 ∧
      MonAct.logResolved "WIN" ∈ monitor_bet cq2 60) :=
  ⟨(claim_C2 cq2 60).1,
    (claim_C2 cq2 60).2.1 2 "WIN" (by norm_num)
      (fun j hj => by
        have : j = 0 ∨ j = 1 := by omega
        rcases this with rfl | rfl <;> rfl)
      (by rfl) (by decide)⟩

/-! ### Rate limiter (`rate_limited_request` body, lines 49-62)

The critical section is guarded by `RATE_LIMIT_LOCK`, so concurrent
`acquire` attempts are serialized; the model quantifies over the
serialization order. One acquisition is observed through: `t1`, the
`time.time()` reading on entry (line 57); `jit`, the value drawn by
`random.uniform(0.05, 0.2)` (line 60); and `t2`, the `time.time()` reading
recorded into `LAST_CALL_TIME` (line 61). `obsValid` states the clock
facts the real execution guarantees: the second reading happens after the
first plus the sleep performed between them. -/

/-- The constant `MIN_INTERVAL` (line 51). -/
def MIN_INTERVAL : ℚ := 1

/-- One serialized acquisition of the rate limiter, as observed. -/
structure AcquireObs where
  t1 : ℚ
  jit : ℚ
  t2 : ℚ

/-- Duration of the `time.sleep` in lines 59-60: when less than
`MIN_INTERVAL` has elapsed since the previous recorded grant, sleep the
remainder plus jitter; otherwise do not sleep. -/
def sleepDur (last : ℚ) (o : AcquireObs) : ℚ :=
  if o.t1 - last < MIN_INTERVAL then MIN_INTERVAL - (o.t1 - last) + o.jit else 0

/-- Clock validity of one acquisition: time is monotone across the
critical section, and `time.sleep d` suspends for at least `d`. -/
def obsValid (last : ℚ) (o : AcquireObs) : Prop :=
  o.t1 + sleepDur last o ≤ o.t2

/-- Validity of a serialized run: each acquisition is valid relative to
the grant time recorded by its predecessor (`LAST_CALL_TIME`, initially
`last`). -/
def obsAllValid : ℚ → List AcquireObs → Prop
  | _, [] => True
  | last, o :: rest => obsValid last o ∧ obsAllValid o.t2 rest

lemma obsValid_step (last : ℚ) (o : AcquireObs) (hv : obsValid last o)
    (hjit : 0 ≤ o.jit) : last + MIN_INTERVAL ≤ o.t2 := by
  unfold obsValid sleepDur at hv
  by_cases h : o.t1 - last < MIN_INTERVAL
  · rw [if_pos h] at hv
    linarith
  · rw [if_neg h] at hv
    have : MIN_INTERVAL ≤ o.t1 - last := not_lt.mp h
    linarith

lemma obsAllValid_lower (last : ℚ) (obs : List AcquireObs)
    (hv : obsAllValid last obs) (hjit : ∀ o ∈ obs, 0 ≤ o.jit) :
    ∀ t ∈ obs.map AcquireObs.t2, last + MIN_INTERVAL ≤ t := by
  induction obs generalizing last with
  | nil => simp
  | cons o rest ih =>
    obtain ⟨hv0, hvrest⟩ := hv
    have h0 : last + MIN_INTERVAL ≤ o.t2 :=
      obsValid_step last o hv0 (hjit o (List.mem_cons_self o rest))
    intro t ht
    rcases List.mem_cons.mp ht with rfl | ht'
    · exact h0
    · have := ih o.t2 hvrest (fun x hx => hjit x (List.mem_cons_of_mem o hx)) t ht'
      have hmin : (0 : ℚ) ≤ MIN_INTERVAL := by norm_num [MIN_INTERVAL]
      linarith

/-- Claim C9: in every serialized run of concurrent `acquire` calls with
valid clock observations and nonnegative jitter, the recorded grant times
form a chain in which each grant is at least `MIN_INTERVAL` after the
previous recorded grant (and after the initial `LAST_CALL_TIME`), and the
grant times are pairwise separated by at least `MIN_INTERVAL`. -/
theorem claim_C9 (last0 : ℚ) (obs : List AcquireObs)
    (hv : obsAllValid last0 obs) (hjit : ∀ o ∈ obs, 0 ≤ o.jit) :
    List.Chain (fun a b => a + MIN_INTERVAL ≤ b) last0 (obs.map AcquireObs.t2) ∧
    List.Pairwise (fun a b => a + MIN_INTERVAL ≤ b) (obs.map AcquireObs.t2) := by
  induction obs generalizing last0 with
  | nil => simp
  | cons o rest ih =>
    obtain ⟨hv0, hvrest⟩ := hv
    have hjrest : ∀ x ∈ rest, 0 ≤ x.jit :=
      fun x hx => hjit x (List.mem_cons_of_mem o hx)
    have h0 : last0 + MIN_INTERVAL ≤ o.t2 :=
      obsValid_step last0 o hv0 (hjit o (List.mem_cons_self o rest))
    have hrec := ih o.t2 hvrest hjrest
    refine ⟨List.Chain.cons h0 hrec.1, ?_⟩
    rw [List.map_cons, List.pairwise_cons]
    exact ⟨obsAllValid_lower o.t2 rest hvrest hjrest, hrec.2⟩

/-- Acquisition observations used as concrete input. -/
def cobs9 : List AcquireObs :=
  [⟨1/2, 1/10, 17/10⟩, ⟨9/5, 1/10, 3⟩]

/-- Witness for Claim C9 at the concrete observation list `cobs9`. -/
theorem claim_C9_witness :
    List.Chain (fun a b => a + MIN_INTERVAL ≤ b) 0 (cobs9.map AcquireObs.t2) ∧
    List.Pairwise (fun a b => a + MIN_INTERVAL ≤ b) (cobs9.map AcquireObs.t2) :=
  claim_C9 0 cobs9
    (by norm_num [cobs9, obsAllValid, obsValid, sleepDur, MIN_INTERVAL])
    (by norm_num [cobs9])

/-! ### Market fetch (`get_odd_even_market`, lines 143-155) and event
discovery (`get_all_live_basketball_events`, lines 111-141)

JSON objects are modelled structurally: a possibly-absent field is an
`Option`, a dict with unknown keys is an association list in response
order (Python dict iteration order is insertion order, so the `for` loop
over `market["submarkets"].values()` sees the first association first).
The two `rate_limited_request` calls are abstracted by their results:
`none` when the executor returned no response. -/

/-- A selection of the odd/even market: `{outcome, price}`. -/
structure Selection where
  outcome : String
  price : ℚ
deriving DecidableEq

/-- One value of `market["submarkets"]`. -/
structure Submarket where
  selections : List Selection
deriving DecidableEq

/-- The `basketball.odd_even` market object; `submarkets` is `none` when
the `"submarkets"` key is absent. -/
structure MarketData where
  submarkets : Option (List (String × Submarket))
deriving DecidableEq

/-- The per-event response body; `markets` is `none` when the `"markets"`
key is absent, and the association list is keyed by market name. -/
structure EventMarketResp where
  markets : Option (List (String × MarketData))
deriving DecidableEq

/-- Embedding of `get_odd_even_market` (lines 143-155), applied to the result of its
`rate_limited_request` call: with no response, return `None`; otherwise if
the `"markets"` key and the `"basketball.odd_even"` key exist and the
market has a `"submarkets"` key, return the selections of the first
submarket (the `for` loop returns on its first iteration); in every other
case fall through to `return None`. -/
def get_odd_even_market (resp : Option EventMarketResp) : Option (List Selection) :=
  match resp with
  | none => none
  | some data =>
    match data.markets with
    | none => none
    | some ms =>
      match ms.lookup "basketball.odd_even" with
      | none => none
      | some market =>
        match market.submarkets with
        | none => none
        | some [] => none
        | some ((_, sm) :: _) => some sm.selections

/-- One event of the feed response: the id, the status read with a
default of the empty string when the key is absent, and the two team
names. -/
structure FeedEvent where
  id : Nat
  status : String
  home : String
  away : String
deriving DecidableEq

/-- One competition of the feed response. -/
structure Competition where
  name : String
  events : List FeedEvent
deriving DecidableEq

/-- The feed response body; `competitions` is `none` when the key is
absent. -/
structure EventsData where
  competitions : Option (List Competition)
deriving DecidableEq

/-- An event dict appended to the result list in lines 133-138. -/
structure DiscEvent where
  event_id : Nat
  event_name : String
  competition : String
  selections : List Selection
deriving DecidableEq

/-- Model of Python `str.lower` on one ASCII character. -/
def pyLowerChar (c : Char) : Char :=
  if c.isUpper then Char.ofNat (c.toNat + 32) else c

/-- Model of Python `str.lower` for the ASCII status strings the feed
uses (the status comparison of line 128). -/
def pyLower (s : String) : String := ⟨s.data.map pyLowerChar⟩

/-- The loop body of lines 127-138 for one feed event: keep a
`trading_live` event whose market fetch yields a non-empty selection list
with at least one selection priced strictly above 1.84, carrying only the
filtered selections. -/
def qualify (marketResp : Nat → Option EventMarketResp) (cname : String)
    (e : FeedEvent) : Option DiscEvent :=
  if pyLower e.status = "trading_live" then
    match get_odd_even_market (marketResp e.id) with
    | some sels =>
      if sels.isEmpty then none
      else
        let filtered := sels.filter (fun s => decide ((1.84 : ℚ) < s.price))
        if filtered.isEmpty then none
        else some ⟨e.id, e.home ++ " vs " ++ e.away, cname, filtered⟩
    | none => none
  else none

/-- Embedding of `get_all_live_basketball_events` (lines 111-141), applied to the result
of its events request and to the per-event market responses. With no
response, return `[]`; with no `competitions` key return `[]` (the early
return of the code on a missing or empty `competitions` value coincides
with iterating over nothing); otherwise collect the qualifying events of every
competition in response order. -/
def get_all_live_basketball_events (eventsResp : Option EventsData)
    (marketResp : Nat → Option EventMarketResp) : List DiscEvent :=
  match eventsResp with
  | none => []
  | some data =>
    match data.competitions with
    | none => []
    | some comps =>
      comps.flatMap (fun c => c.events.filterMap (qualify marketResp c.name))

lemma qualify_some (marketResp : Nat → Option EventMarketResp)
    (cname : String) (e : FeedEvent) (ev : DiscEvent)
    (h : qualify marketResp cname e = some ev) :
    ev.selections ≠ [] ∧ ∀ s ∈ ev.selections, (1.84 : ℚ) < s.price := by
  unfold qualify at h
  split at h
  · cases hm : get_odd_even_market (marketResp e.id) with
    | none => rw [hm] at h; exact absurd h (by simp)
    | some sels =>
      rw [hm] at h
      dsimp only at h
      by_cases hne : sels.isEmpty
      · rw [if_pos hne] at h; exact absurd h (by simp)
      · rw [if_neg hne] at h
        by_cases hfe : (sels.filter (fun s => decide ((1.84 : ℚ) < s.price))).isEmpty
        · rw [if_pos hfe] at h; exact absurd h (by simp)
        · rw [if_neg hfe] at h
          obtain rfl := Option.some.inj h
          refine ⟨by simpa [List.isEmpty_iff] using hfe, ?_⟩
          intro s hs
          have hs' : s ∈ sels.filter (fun s => decide ((1.84 : ℚ) < s.price)) := hs
          exact of_decide_eq_true (List.mem_filter.mp hs').2
  · exact absurd h (by simp)

/-- Claim C10: `get_odd_even_market` returns the selections of the first
submarket of the response, whatever further submarkets follow (they are
never inspected), and returns no result whenever the response is missing,
lacks the `markets` key, lacks the `basketball.odd_even` market, or lacks
the `submarkets` key. -/
theorem claim_C10 :
    (∀ (data : EventMarketResp) (ms : List (String × MarketData))
        (market : MarketData) (key : String) (sm : Submarket)
        (rest : List (String × Submarket)),
      data.markets = some ms →
      ms.lookup "basketball.odd_even" = some market →
      market.submarkets = some ((key, sm) :: rest) →
      get_odd_even_market (some data) = some sm.selections) ∧
    get_odd_even_market none = none ∧
    (∀ (data : EventMarketResp), data.markets = none →
      get_odd_even_market (some data) = none) ∧
    (∀ (data : EventMarketResp) (ms : List (String × MarketData)),
      data.markets = some ms → ms.lookup "basketball.odd_even" = none →
      get_odd_even_market (some data) = none) ∧
    (∀ (data : EventMarketResp) (ms : List (String × MarketData))
        (market : MarketData),
      data.markets = some ms → ms.lookup "basketball.odd_even" = some market →
      market.submarkets = none → get_odd_even_market (some data) = none) := by
  refine ⟨?_, rfl, ?_, ?_, ?_⟩
  · intro data ms market key sm rest h1 h2 h3
    simp [get_odd_even_market, h1, h2, h3]
  · intro data h1
    simp [get_odd_even_market, h1]
  · intro data ms h1 h2
    simp [get_odd_even_market, h1, h2]
  · intro data ms market h1 h2 h3
    simp [get_odd_even_market, h1, h2, h3]

/-- Market response used as concrete input: two submarkets, the first with
an `odd` selection at 1.9, the second with an `even` selection at 1.8. -/
def cmarket10 : EventMarketResp :=
  ⟨some [("basketball.odd_even",
    ⟨some [("period=ot&period=ft", ⟨[⟨"odd", 19/10⟩]⟩),
           ("period=ft", ⟨[⟨"even", 9/5⟩]⟩)]⟩)]⟩

/-- Witness for Claim C10 at the concrete response `cmarket10`. -/
theorem claim_C10_witness :
    get_odd_even_market (some cmarket10) = some [⟨"odd", 19/10⟩] ∧
    get_odd_even_market none = none :=
  ⟨claim_C10.1 cmarket10
      [("basketball.odd_even",
        ⟨some [("period=ot&period=ft", ⟨[⟨"odd", 19/10⟩]⟩),
               ("period=ft", ⟨[⟨"even", 9/5⟩]⟩)]⟩)]
      ⟨some [("period=ot&period=ft", ⟨[⟨"odd", 19/10⟩]⟩),
             ("period=ft", ⟨[⟨"even", 9/5⟩]⟩)]⟩
      "period=ot&period=ft" ⟨[⟨"odd", 19/10⟩]⟩
      [("period=ft", ⟨[⟨"even", 9/5⟩]⟩)]
      rfl rfl rfl,
    claim_C10.2.1⟩

/-- Claim C5: every event returned by discovery has a non-empty selection
list in which every price is strictly above the 1.84 threshold (so no
selection priced at or below 1.84 can reach a `place_bet` call, whose loop
runs over exactly this list); the result is `[]` when the events request
yields no response, and also when the feed reports no competitions. -/
theorem claim_C5 (eventsResp : Option EventsData)
    (marketResp : Nat → Option EventMarketResp) :
    (∀ ev ∈ get_all_live_basketball_events eventsResp marketResp,
      ev.selections ≠ [] ∧ ∀ s ∈ ev.selections, (1.84 : ℚ) < s.price) ∧
    (eventsResp = none → get_all_live_basketball_events eventsResp marketResp = []) ∧
    (∀ data, eventsResp = some data →
      (data.competitions = none ∨ data.competitions = some []) →
      get_all_live_basketball_events eventsResp marketResp = []) := by
  refine ⟨?_, ?_, ?_⟩
  · intro ev hev
    match eventsResp with
    | none => simp [get_all_live_basketball_events] at hev
    | some data =>
      match hc : data.competitions with
      | none => simp [get_all_live_basketball_events, hc] at hev
      | some comps =>
        simp only [get_all_live_basketball_events, hc] at hev
        obtain ⟨c, _, hev'⟩ := List.mem_flatMap.mp hev
        obtain ⟨e, _, hq⟩ := List.mem_filterMap.mp hev'
        exact qualify_some marketResp c.name e ev hq
  · intro h
    simp [get_all_live_basketball_events, h]
  · intro data h hcomp
    rcases hcomp with hc | hc <;> simp [get_all_live_basketball_events, h, hc]

/-- Feed response used as concrete input: one competition with one live
event and one not-live event. -/
def cfeed5 : EventsData :=
  ⟨some [⟨"NBA", [⟨10, "TRADING_LIVE", "A", "B"⟩, ⟨11, "TRADING", "C", "D"⟩]⟩]⟩

/-- Market responses used as concrete input: event 10 has one submarket
with selections priced 1.9 and 1.8. -/
def cmkt5 : Nat → Option EventMarketResp :=
  fun i =>
    if i = 10 then
      some ⟨some [("basketball.odd_even",
        ⟨some [("period=ft", ⟨[⟨"odd", 19/10⟩, ⟨"even", 9/5⟩]⟩)]⟩)]⟩
    else none

lemma cfeed5_eval :
    get_all_live_basketball_events (some cfeed5) cmkt5 =
      [⟨10, "A vs B", "NBA", [⟨"odd", 19/10⟩]⟩] := by
  have h1 : (1.84 : ℚ) < 19/10 := by norm_num
  have h2 : ¬ ((1.84 : ℚ) < 9/5) := by norm_num
  have hlive : pyLower "TRADING_LIVE" = "trading_live" := by decide
  have hnot : (pyLower "TRADING" = "trading_live") = False :=
    eq_false (by decide)
  simp [get_all_live_basketball_events, cfeed5, cmkt5, qualify,
    get_odd_even_market, List.filter, hlive, hnot,
    decide_eq_true h1, decide_eq_false h2]

/-- Witness for Claim C5 at the concrete feed `cfeed5`, `cmkt5`. -/
theorem claim_C5_witness :
    ((⟨10, "A vs B", "NBA", [⟨"odd", 19/10⟩]⟩ : DiscEvent).selections ≠ [] ∧
      ∀ s ∈ (⟨10, "A vs B", "NBA", [⟨"odd", 19/10⟩]⟩ : DiscEvent).selections,
        (1.84 : ℚ) < s.price) ∧
    get_all_live_basketball_events none cmkt5 = [] :=
  ⟨(claim_C5 (some cfeed5) cmkt5).1 ⟨10, "A vs B", "NBA", [⟨"odd", 19/10⟩]⟩
      (by rw [cfeed5_eval]; exact List.mem_singleton_self _),
    (claim_C5 none cmkt5).2.1 rfl⟩

/-! ### Poll-loop dedup (`main`, lines 238-257)

One cycle reads the seen-event key set, discovers events, and filters out
events whose stringified identifier is already present before placing any
bet (line 246). `cycle_place_targets` is the list of events on which
`place_bet` is invoked in that cycle (lines 245-250): nothing when
discovery returned nothing, otherwise the filtered list (nothing when it
is empty). -/

/-- The events a cycle passes to `place_bet`, given the seen-event key set
read at cycle start and the discovered events. -/
def cycle_place_targets (existing : List String) (events : List DiscEvent) :
    List DiscEvent :=
  if events.isEmpty then [] else
    let new := events.filter (fun e => decide (toString e.event_id ∉ existing))
    if new.isEmpty then [] else new

/-- Claim C6: an event whose stringified identifier is in the seen-event
set read at cycle start is never passed to `place_bet` in that cycle. -/
theorem claim_C6 (existing : List String) (events : List DiscEvent)
    (e : DiscEvent) (h : toString e.event_id ∈ existing) :
    e ∉ cycle_place_targets existing events := by
  intro hmem
  unfold cycle_place_targets at hmem
  split at hmem
  · exact absurd hmem (List.not_mem_nil e)
  · dsimp only at hmem
    split at hmem
    · exact absurd hmem (List.not_mem_nil e)
    · have hpred := (List.mem_filter.mp hmem).2
      rw [decide_eq_true_eq] at hpred
      exact hpred h

/-- Discovered event used as concrete input for the dedup step. -/
def cdisc6 : DiscEvent := ⟨10, "A vs B", "NBA", [⟨"odd", 2⟩]⟩

/-- Witness for Claim C6: an event with identifier 10 is not placed when
"10" is already in the seen set. -/
theorem claim_C6_witness : cdisc6 ∉ cycle_place_targets ["10"] [cdisc6] :=
  claim_C6 ["10"] [cdisc6] cdisc6 (by decide)

/-! ### Bet placement (`place_bet`, lines 157-201)

The per-selection `rate_limited_request` outcome is modelled as
`Option PlaceRespBody`: `none` when the executor returned no response
(handled by `if not response: continue`), `notJson` when
`response.json()` raises, and `json mref mstat` for a parsed body whose
`referenceId` and `status` fields may be absent (an absent field raises
`KeyError` at the log lines 189-190). Python exceptions escaping
`place_bet` become `Except.error`; the successful run returns the trace of
store writes / monitor starts / failure logs together with
`bets_placed`. -/

/-- Parsed outcome of one placement response. -/
inductive PlaceRespBody where
  | notJson
  | json (referenceId : Option String) (status : Option String)
deriving DecidableEq

/-- Python exceptions that can escape `place_bet`. -/
inductive PyErr where
  | jsonDecodeError
  | keyError
deriving DecidableEq

/-- Side effects of `place_bet`: a Seen-Event Store write
(`save_event_id`, line 183), a monitor start (lines 193-199), and the
failure log for one side (line 177). -/
inductive PlaceEv where
  | saveEvent (id : Nat)
  | startMonitor (refId : String)
  | logFailSide (side : String)
deriving DecidableEq

/-- The per-selection loop of `place_bet` (lines 161-199). `i` is the
index of the current selection. No response: log and continue. A response
whose body is not JSON: `response.json()` raises. Otherwise the response
is appended to `bets_placed`, the event id is written to the store, the
log lines read `referenceId` and `status` (raising `KeyError` when
absent), and a `PENDING_ACCEPTANCE` status registers the bet and starts a
monitor task. -/
def place_bet_go (eid : Nat) (beh : Nat → Option PlaceRespBody) :
    Nat → List Selection → Except PyErr (List PlaceEv × List PlaceRespBody)
  | _, [] => Except.ok ([], [])
  | i, sel :: rest =>
    match beh i with
    | none =>
      match place_bet_go eid beh (i + 1) rest with
      | Except.ok (tr, bets) =>
        Except.ok (PlaceEv.logFailSide sel.outcome :: tr, bets)
      | Except.error e => Except.error e
    | some PlaceRespBody.notJson => Except.error PyErr.jsonDecodeError
    | some (PlaceRespBody.json mref mstat) =>
      match mref, mstat with
      | some ref, some st =>
        match place_bet_go eid beh (i + 1) rest with
        | Except.ok (tr, bets) =>
          Except.ok (PlaceEv.saveEvent eid ::
            ((if st = "PENDING_ACCEPTANCE" then [PlaceEv.startMonitor ref] else []) ++ tr),
            PlaceRespBody.json (some ref) (some st) :: bets)
        | Except.error e => Except.error e
      | _, _ => Except.error PyErr.keyError

/-- Embedding of `place_bet` (lines 157-201) on one discovered event. -/
def place_bet (ev : DiscEvent) (beh : Nat → Option PlaceRespBody) :
    Except PyErr (List PlaceEv × List PlaceRespBody) :=
  place_bet_go ev.event_id beh 0 ev.selections

/-- Number of Seen-Event Store writes on a placement trace. -/
def saveCount : List PlaceEv → Nat
  | [] => 0
  | PlaceEv.saveEvent _ :: rest => saveCount rest + 1
  | _ :: rest => saveCount rest

/-- Number of Seen-Event Store writes of a `place_bet` outcome (none when
an exception escaped). -/
def placeSaves (r : Except PyErr (List PlaceEv × List PlaceRespBody)) : Nat :=
  match r with
  | Except.ok (tr, _) => saveCount tr
  | Except.error _ => 0

/-- Number of selection indices in `[i, i + n)` for which a response was
received. -/
def respCount (beh : Nat → Option PlaceRespBody) : Nat → Nat → Nat
  | _, 0 => 0
  | i, n + 1 => (if (beh i).isSome then 1 else 0) + respCount beh (i + 1) n

lemma saveCount_append (l₁ l₂ : List PlaceEv) :
    saveCount (l₁ ++ l₂) = saveCount l₁ + saveCount l₂ := by
  induction l₁ with
  | nil => simp [saveCount]
  | cons a l ih => cases a <;> simp [saveCount, ih] <;> omega

lemma place_bet_go_ok (eid : Nat) (beh : Nat → Option PlaceRespBody)
    (hbeh : ∀ i, beh i = none ∨
      ∃ ref st, beh i = some (PlaceRespBody.json (some ref) (some st))) :
    ∀ (sels : List Selection) (i : Nat),
      ∃ tr bets, place_bet_go eid beh i sels = Except.ok (tr, bets) ∧
        saveCount tr = respCount beh i sels.length ∧
        ∀ n, PlaceEv.saveEvent n ∈ tr → n = eid := by
  intro sels
  induction sels with
  | nil =>
    intro i
    exact ⟨[], [], rfl, by simp [respCount, saveCount],
      fun n hn => absurd hn (List.not_mem_nil _)⟩
  | cons sel rest ih =>
    intro i
    obtain ⟨tr, bets, hgo, hcount, hid⟩ := ih (i + 1)
    rcases hbeh i with hnone | ⟨ref, st, hjson⟩
    · refine ⟨PlaceEv.logFailSide sel.outcome :: tr, bets, ?_, ?_, ?_⟩
      · simp [place_bet_go, hnone, hgo]
      · simp [saveCount, hcount, respCount, hnone]
      · intro n hn
        rcases List.mem_cons.mp hn with hn | hn
        · exact absurd hn (by simp)
        · exact hid n hn
    · refine ⟨PlaceEv.saveEvent eid ::
        ((if st = "PENDING_ACCEPTANCE" then [PlaceEv.startMonitor ref] else []) ++ tr),
        PlaceRespBody.json (some ref) (some st) :: bets, ?_, ?_, ?_⟩
      · simp [place_bet_go, hjson, hgo]
      · by_cases hst : st = "PENDING_ACCEPTANCE" <;>
          simp [saveCount, hst, saveCount_append, hcount, respCount, hjson] <;>
          omega
      · intro n hn
        rcases List.mem_cons.mp hn with hn | hn
        · exact (PlaceEv.saveEvent.inj hn.symm).symm ▸ rfl
        · rcases List.mem_append.mp hn with hn | hn
          · by_cases hst : st = "PENDING_ACCEPTANCE" <;> simp [hst] at hn
          · exact hid n hn

/-- Event used as the concrete input on which a malformed response
crashes `place_bet`. -/
def cev7 : DiscEvent := ⟨42, "A vs B", "NBA", [⟨"odd", 2⟩]⟩

/-- Behaviour used as concrete input: the placement response body is not
JSON. -/
def cbeh7 : Nat → Option PlaceRespBody := fun _ => some PlaceRespBody.notJson

/-- Claim C7, counterexample: a placement response whose body is not JSON
makes `response.json()` raise inside `place_bet`; the error escapes the
call (and hence the poll cycle, which has no handler), so not every
external-service behaviour is absorbed at its call site. -/
theorem claim_C7_cex :
    place_bet cev7 cbeh7 = Except.error PyErr.jsonDecodeError := rfl

/-- Claim C7, amended: transport-level failures are absorbed: when every
placement request either yields no response (the executor gave up) or a
well-formed body carrying `referenceId` and `status`, `place_bet` raises
nothing, logging each failed side and continuing with the next selection;
malformed bodies or missing fields, however, raise and escape. -/
theorem claim_C7 (ev : DiscEvent) (beh : Nat → Option PlaceRespBody)
    (hbeh : ∀ i, beh i = none ∨
      ∃ ref st, beh i = some (PlaceRespBody.json (some ref) (some st))) :
    ∃ out, place_bet ev beh = Except.ok out := by
  obtain ⟨tr, bets, hgo, -, -⟩ := place_bet_go_ok ev.event_id beh hbeh ev.selections 0
  exact ⟨(tr, bets), hgo⟩

/-- Event used as concrete input for the C7 witness. -/
def cev7w : DiscEvent := ⟨7, "C vs D", "NBA", [⟨"odd", 2⟩, ⟨"even", 2⟩]⟩

/-- Behaviour used as concrete input: the first side gets no response, the
second a well-formed pending response. -/
def cbeh7w : Nat → Option PlaceRespBody :=
  fun i => if i = 0 then none
    else some (PlaceRespBody.json (some "r1") (some "PENDING_ACCEPTANCE"))

/-- Witness for Claim C7 at the concrete inputs `cev7w`, `cbeh7w`. -/
theorem claim_C7_witness : ∃ out, place_bet cev7w cbeh7w = Except.ok out :=
  claim_C7 cev7w cbeh7w
    (fun i => by
      by_cases h : i = 0
      · exact Or.inl (by simp [cbeh7w, h])
      · exact Or.inr ⟨"r1", "PENDING_ACCEPTANCE", by simp [cbeh7w, h]⟩)

/-- Event used as the concrete input on which `place_bet` writes the store
twice. -/
def cev8 : DiscEvent := ⟨42, "A vs B", "NBA", [⟨"odd", 2⟩, ⟨"even", 2⟩]⟩

/-- Behaviour used as concrete input: both placements succeed with status
`ACCEPTED`. -/
def cbeh8 : Nat → Option PlaceRespBody :=
  fun i => some (PlaceRespBody.json (some (toString i)) (some "ACCEPTED"))

/-- Claim C8, counterexample: one `place_bet` call on an event with two
selections whose placements both succeed writes the event identifier to
the Seen-Event Store twice (once per successful submission, line 183 being
inside the per-selection loop), so the identifier is not written at most
once per placement pass. -/
theorem claim_C8_cex : ¬ placeSaves (place_bet cev8 cbeh8) ≤ 1 := by decide

/-- Claim C8, amended: during one placement pass the event identifier is
written to the Seen-Event Store exactly once per selection for which a
placement response was received — so possibly several times per pass, each
re-write idempotently resetting the same key with a fresh timestamp — and
every write of the pass carries the identifier of that event; the system
never deletes entries. -/
theorem claim_C8 (ev : DiscEvent) (beh : Nat → Option PlaceRespBody)
    (hbeh : ∀ i, beh i = none ∨
      ∃ ref st, beh i = some (PlaceRespBody.json (some ref) (some st))) :
    ∃ tr bets, place_bet ev beh = Except.ok (tr, bets) ∧
      saveCount tr = respCount beh 0 ev.selections.length ∧
      ∀ n, PlaceEv.saveEvent n ∈ tr → n = ev.event_id :=
  place_bet_go_ok ev.event_id beh hbeh ev.selections 0

/-- Witness for Claim C8 at the concrete inputs `cev8`, `cbeh8`. -/
theorem claim_C8_witness :
    ∃ tr bets, place_bet cev8 cbeh8 = Except.ok (tr, bets) ∧
      saveCount tr = respCount cbeh8 0 cev8.selections.length ∧
      ∀ n, PlaceEv.saveEvent n ∈ tr → n = cev8.event_id :=
  claim_C8 cev8 cbeh8 (fun i => Or.inr ⟨toString i, "ACCEPTED", rfl⟩)

end OddEven
